import Mathlib

/-!
Verification of the log-monitoring dashboard in blackicesecure-space/Valtheron.

The executable core is JavaScript; we shallowly embed it here.  Strings are
modelled as `List Char` (the log pipeline only manipulates text; byte offsets
of `fs.createReadStream` coincide with character offsets for the ASCII data
the theorems use).  JavaScript objects flowing through the pipeline are
modelled by an inductive `Json` value; `JSON.parse` is modelled by a
fuel-based recursive-descent parser over the JSON grammar.
-/

/-- Strings of the embedded programs: lists of characters. -/
abbrev Str := List Char

/-- `String.prototype.toLowerCase`, characterwise. -/
def lowerStr (s : Str) : Str := s.map Char.toLower

/-- `String.prototype.endsWith`. -/
def strEndsWith (s suffix : Str) : Bool :=
  List.isPrefixOf suffix.reverse s.reverse

/-- `String.prototype.includes`: `pat` occurs contiguously in `s`. -/
def containsSub : Str → Str → Bool
  | [], pat => pat.isEmpty
  | s@(_ :: t), pat => List.isPrefixOf pat s || containsSub t pat

/-- Truthiness of `line.trim()` in JavaScript: the line has a
non-whitespace character. -/
def nonWS (l : Str) : Bool := l.any (fun c => !c.isWhitespace)

/-- `String.prototype.split(sep)` for a one-character separator, e.g.
`buffer.split('\n')` in `LogWatcher.readNewLines`. -/
def splitOnChar (c : Char) : Str → List Str
  | [] => [[]]
  | x :: xs =>
    if x = c then [] :: splitOnChar c xs
    else
      match splitOnChar c xs with
      | [] => [[x]]
      | h :: t => (x :: h) :: t

/-- `path.basename`: the part of the path after the last `/`. -/
def basename (p : Str) : Str :=
  (p.reverse.takeWhile (fun c => c ≠ '/')).reverse

/-- `path.join dir name` (POSIX). -/
def joinPath (dir name : Str) : Str := dir ++ '/' :: name

/-- JavaScript values produced by `JSON.parse` and object literals.
Numbers keep their source lexeme (no floating-point semantics is needed:
no claim depends on numeric arithmetic). -/
inductive Json where
  | null : Json
  | bool (b : Bool) : Json
  | num (lex : Str) : Json
  | str (s : Str) : Json
  | arr (elems : List Json) : Json
  | obj (fields : List (Str × Json)) : Json

/-- First-match association lookup among an object's fields (the parser and
the embedded code never build duplicate keys). -/
def lookupField : List (Str × Json) → Str → Option Json
  | [], _ => none
  | (k', v) :: r, k => if k' = k then some v else lookupField r k

/-- `o[k]` — property access on a value; non-objects have no fields. -/
def getField (j : Json) (k : Str) : Option Json :=
  match j with
  | .obj fs => lookupField fs k
  | _ => none

/-- Assignment `o[k] = v` on an object's field list: an existing key keeps
its position and gets the new value, a fresh key is appended. -/
def setFieldIn : List (Str × Json) → Str → Json → List (Str × Json)
  | [], k, v => [(k, v)]
  | (k', v') :: r, k, v =>
    if k' = k then (k', v) :: r else (k', v') :: setFieldIn r k v

/-- `o[k] = v` — on non-objects the assignment is a silent no-op (sloppy
mode), matching `logEntry.source = ...` when `JSON.parse` returned a
primitive. -/
def setField (j : Json) (k : Str) (v : Json) : Json :=
  match j with
  | .obj fs => .obj (setFieldIn fs k v)
  | _ => j

/-- Whether a numeric lexeme denotes zero: no nonzero digit in its
mantissa. -/
def numLexIsZero (lex : Str) : Bool :=
  !(lex.takeWhile (fun c => !(c = 'e' || c = 'E'))).any
      (fun c => c.isDigit && c != '0')

/-- JavaScript truthiness of a value. -/
def jsTruthy : Json → Bool
  | .null => false
  | .bool b => b
  | .num lex => !numLexIsZero lex
  | .str s => !s.isEmpty
  | .arr _ => true
  | .obj _ => true

/-- JSON insignificant whitespace. -/
def skipWs (s : Str) : Str :=
  s.dropWhile (fun c => c = ' ' || c = '\t' || c = '\n' || c = '\r')

/-- Value of a hexadecimal digit, by code point: digits 48-57, lowercase
97-102, uppercase 65-70. -/
def hexVal (c : Char) : Option Nat :=
  let n := c.toNat
  if 48 ≤ n && n < 58 then some (n - 48)
  else if 97 ≤ n && n < 103 then some (n - 87)
  else if 65 ≤ n && n < 71 then some (n - 55)
  else none

/-- Body of a JSON string literal (opening quote already consumed):
returns the decoded text and the input after the closing quote. -/
def parseJStr : Nat → Str → Option (Str × Str)
  | 0, _ => none
  | fuel + 1, s =>
    match s with
    | [] => none
    | '"' :: r => some ([], r)
    | '\\' :: e :: r =>
      (match e with
       | '"' => (parseJStr fuel r).map (fun (t, rest) => ('"' :: t, rest))
       | '\\' => (parseJStr fuel r).map (fun (t, rest) => ('\\' :: t, rest))
       | '/' => (parseJStr fuel r).map (fun (t, rest) => ('/' :: t, rest))
       | 'b' => (parseJStr fuel r).map (fun (t, rest) => (Char.ofNat 8 :: t, rest))
       | 'f' => (parseJStr fuel r).map (fun (t, rest) => (Char.ofNat 12 :: t, rest))
       | 'n' => (parseJStr fuel r).map (fun (t, rest) => ('\n' :: t, rest))
       | 'r' => (parseJStr fuel r).map (fun (t, rest) => ('\r' :: t, rest))
       | 't' => (parseJStr fuel r).map (fun (t, rest) => ('\t' :: t, rest))
       | 'u' =>
         (match r with
          | h1 :: h2 :: h3 :: h4 :: r' =>
            match hexVal h1, hexVal h2, hexVal h3, hexVal h4 with
            | some a, some b, some c, some d =>
              (parseJStr fuel r').map
                (fun (t, rest) =>
                  (Char.ofNat (((a * 16 + b) * 16 + c) * 16 + d) :: t, rest))
            | _, _, _, _ => none
          | _ => none)
       | _ => none)
    | c :: r => (parseJStr fuel r).map (fun (t, rest) => (c :: t, rest))

/-- Lexeme of a JSON number (sign, integer part without leading zeros,
optional fraction and exponent); returns the lexeme and the rest. -/
def parseNumberLex (s : Str) : Option (Str × Str) :=
  let (sign, s1) :=
    match s with
    | '-' :: r => (['-'], r)
    | _ => (([] : Str), s)
  let intPart : Option (Str × Str) :=
    match s1 with
    | '0' :: r => some (['0'], r)
    | c :: r =>
      if c.isDigit then
        some (c :: r.takeWhile Char.isDigit, r.dropWhile Char.isDigit)
      else none
    | [] => none
  match intPart with
  | none => none
  | some (ip, s2) =>
    let (frac, s3) :=
      match s2 with
      | '.' :: c :: r =>
        if c.isDigit then
          ('.' :: c :: r.takeWhile Char.isDigit, r.dropWhile Char.isDigit)
        else (([] : Str), s2)
      | _ => (([] : Str), s2)
    let (expo, s4) :=
      match s3 with
      | e :: rest =>
        if e = 'e' || e = 'E' then
          let (sgn, rest2) :=
            match rest with
            | '+' :: r2 => (['+'], r2)
            | '-' :: r2 => (['-'], r2)
            | _ => (([] : Str), rest)
          match rest2 with
          | c :: r2 =>
            if c.isDigit then
              (e :: sgn ++ c :: r2.takeWhile Char.isDigit,
               r2.dropWhile Char.isDigit)
            else (([] : Str), s3)
          | [] => (([] : Str), s3)
        else (([] : Str), s3)
      | [] => (([] : Str), s3)
    some (sign ++ ip ++ frac ++ expo, s4)

mutual

/-- Recursive-descent JSON value parser (fuel-bounded), the model of
`JSON.parse`'s grammar. -/
def parseJson : Nat → Str → Option (Json × Str)
  | 0, _ => none
  | fuel + 1, s0 =>
    let s := skipWs s0
    match s with
    | '{' :: r =>
      (match skipWs r with
       | '}' :: rest => some (.obj [], rest)
       | r2 =>
         (parseMembers fuel r2).bind
           (fun (fs, rest) =>
             match skipWs rest with
             | '}' :: rest2 => some (.obj fs, rest2)
             | _ => none))
    | '[' :: r =>
      (match skipWs r with
       | ']' :: rest => some (.arr [], rest)
       | r2 =>
         (parseElems fuel r2).bind
           (fun (es, rest) =>
             match skipWs rest with
             | ']' :: rest2 => some (.arr es, rest2)
             | _ => none))
    | '"' :: r => (parseJStr fuel r).map (fun (t, rest) => (.str t, rest))
    | 't' :: 'r' :: 'u' :: 'e' :: r => some (.bool true, r)
    | 'f' :: 'a' :: 'l' :: 's' :: 'e' :: r => some (.bool false, r)
    | 'n' :: 'u' :: 'l' :: 'l' :: r => some (.null, r)
    | _ => (parseNumberLex s).map (fun (lex, rest) => (.num lex, rest))

/-- Comma-separated `"key": value` members of a JSON object. -/
def parseMembers : Nat → Str → Option (List (Str × Json) × Str)
  | 0, _ => none
  | fuel + 1, s =>
    match skipWs s with
    | '"' :: r =>
      (parseJStr fuel r).bind
        (fun (k, rest) =>
          match skipWs rest with
          | ':' :: r2 =>
            (parseJson fuel r2).bind
              (fun (v, rest2) =>
                match skipWs rest2 with
                | ',' :: r3 =>
                  (parseMembers fuel r3).map
                    (fun (fs, rest3) => ((k, v) :: fs, rest3))
                | rest' => some ([(k, v)], rest'))
          | _ => none)
    | _ => none

/-- Comma-separated elements of a JSON array. -/
def parseElems : Nat → Str → Option (List Json × Str)
  | 0, _ => none
  | fuel + 1, s =>
    (parseJson fuel s).bind
      (fun (v, rest) =>
        match skipWs rest with
        | ',' :: r2 =>
          (parseElems fuel r2).map (fun (es, rest2) => (v :: es, rest2))
        | rest' => some ([v], rest'))

end

/-- `JSON.parse`: parse one value, require only whitespace to remain;
`none` models a thrown `SyntaxError`. -/
def jsonParse (s : Str) : Option Json :=
  (parseJson (2 * s.length + 4) s).bind
    (fun (j, rest) => if (skipWs rest).isEmpty then some j else none)

/-! ### String literals used by the embedded code -/

def extJson : Str := ".json".toList
def extLog : Str := ".log".toList
def extYaml : Str := ".yaml".toList
def extYml : Str := ".yml".toList
def schemaSuffix : Str := ".schema.json".toList
def kwError : Str := "error".toList
def kwFail : Str := "fail".toList
def kwWarn : Str := "warn".toList
def kwInfo : Str := "info".toList
def kwDebug : Str := "debug".toList
def lvlError : Str := "error".toList
def lvlWarning : Str := "warning".toList
def lvlInfo : Str := "info".toList
def lvlDebug : Str := "debug".toList
def fldRaw : Str := "raw".toList
def fldSource : Str := "source".toList
def fldTimestamp : Str := "timestamp".toList
def fldParseError : Str := "parseError".toList
def fldLevel : Str := "level".toList
def fldMessage : Str := "message".toList
def fldType : Str := "type".toList
def fldData : Str := "data".toList
def fldError : Str := "error".toList
def fldFilename : Str := "filename".toList
def fldPath : Str := "path".toList
def msgFailedParse : Str := "Failed to parse JSON".toList
def litLog : Str := "log".toList

/-! ### Log Tailer (`LogWatcher`, src/unnamed/part_001) -/

/-- `LogWatcher.inferLogLevel` (part_001 lines 144-151): case-insensitive
substring heuristic over the line, checked in source order. -/
def inferLogLevel (line : Str) : Str :=
  let lowerLine := lowerStr line
  if containsSub lowerLine kwError || containsSub lowerLine kwFail then lvlError
  else if containsSub lowerLine kwWarn then lvlWarning
  else if containsSub lowerLine kwInfo then lvlInfo
  else if containsSub lowerLine kwDebug then lvlDebug
  else lvlInfo

/-- The lines handed to `processLogLine` by one run of `readNewLines`'s
stream handlers over the freshly read text: the data handler splits the
accumulated buffer on newlines, keeps the trailing segment in the local
`buffer` variable, and processes the earlier segments that pass
`line.trim()`; the end handler processes the remaining buffer under the
same guard.  Carrying the buffer across chunks makes the outcome
chunking-independent, so the model reads the text as one chunk: the
trim-nonempty segments of the newline split, in order. -/
def emittedLines (content : Str) : List Str :=
  (splitOnChar '\n' content).filter nonWS

/-- `LogWatcher.readNewLines` (part_001 lines 71-111): `content` is the
file's full content; the stream reads from `startPosition`, and nothing is
read when the size does not exceed it.  Returns the lines processed. -/
def readNewLines (startPosition : Nat) (content : Str) : List Str :=
  if content.length ≤ startPosition then []
  else emittedLines (content.drop startPosition)

/-- `LogWatcher.processLogLine` (part_001 lines 113-142): the log entry
built for one line; `now` stands for `new Date().toISOString()`. -/
def processLogLine (line filePath : Str) (now : Str) : Json :=
  if strEndsWith filePath extJson then
    match jsonParse line with
    | some j => setField j fldSource (.str (basename filePath))
    | none =>
      .obj [(fldRaw, .str line), (fldSource, .str (basename filePath)),
            (fldTimestamp, .str now), (fldParseError, .bool true)]
  else
    .obj [(fldRaw, .str line), (fldSource, .str (basename filePath)),
          (fldTimestamp, .str now), (fldLevel, .str (inferLogLevel line))]

/-- The extension filter at the top of `handleFileAdd`/`handleFileChange`. -/
def watchedExt (p : Str) : Bool :=
  strEndsWith p extJson || strEndsWith p extLog

/-- `LogWatcher.handleFileAdd` (part_001 lines 38-53): records the file's
size as its position and reads from offset 0.  Returns the new offset and
the lines processed; `content` is the file's content when the event fires. -/
def handleFileAdd (path : Str) (offset : Nat) (content : Str) :
    Nat × List Str :=
  if watchedExt path then (content.length, readNewLines 0 content)
  else (offset, [])

/-- `LogWatcher.handleFileChange` (part_001 lines 55-69): reads from the
recorded position (0 when absent) and records the file's size. -/
def handleFileChange (path : Str) (offset : Nat) (content : Str) :
    Nat × List Str :=
  if watchedExt path then (content.length, readNewLines offset content)
  else (offset, [])

/-- A chokidar event on a watched path, carrying the file's content at the
time the handler's `fs.statSync`/read run. -/
inductive FsEvent where
  | add (content : Str)
  | change (content : Str)

/-- The file content an event carries. -/
def FsEvent.content : FsEvent → Str
  | .add c => c
  | .change c => c

/-- Dispatch of one event to its handler. -/
def stepWatcher (path : Str) (offset : Nat) : FsEvent → Nat × List Str
  | .add c => handleFileAdd path offset c
  | .change c => handleFileChange path offset c

/-- The successive recorded offsets while a sequence of events on one path
is handled. -/
def offsetsAfter (path : Str) (offset : Nat) : List FsEvent → List Nat
  | [] => []
  | ev :: evs =>
    let o' := (stepWatcher path offset ev).1
    o' :: offsetsAfter path o' evs

/-! ### Broadcast Hub (`websocketServer.js`) -/

/-- `WebSocket.OPEN`. -/
def wsOPEN : Nat := 1

/-- One entry of `wss.clients`. -/
structure Client where
  id : Nat
  readyState : Nat

/-- The `wss.clients.forEach` loop of `broadcast` (websocketServer.js
lines 47-51): the deliveries performed, in iteration order.  Every open
client is sent the one stringified message; others are skipped. -/
def sendLoop : List Client → Json → List (Nat × Json)
  | [], _ => []
  | c :: cs, data =>
    if c.readyState = wsOPEN then (c.id, data) :: sendLoop cs data
    else sendLoop cs data

/-- `broadcast` (websocketServer.js lines 42-52): no deliveries before
`setupWebSocket` ran (`wss` still null). -/
def wsBroadcast (wss : Option (List Client)) (data : Json) :
    List (Nat × Json) :=
  match wss with
  | none => []
  | some clients => sendLoop clients data

/-- The envelope `processLogLine` hands to `broadcast` (part_001 lines
137-141); `nowMs` stands for `Date.now()`. -/
def logEnvelope (rec : Json) (nowMs : Nat) : Json :=
  .obj [(fldType, .str litLog), (fldData, rec),
        (fldTimestamp, .num (Nat.repr nowMs).toList)]

/-- Publishing one record: the `broadcast` call made for it. -/
def publishRecord (wss : Option (List Client)) (rec : Json) (nowMs : Nat) :
    List (Nat × Json) :=
  wsBroadcast wss (logEnvelope rec nowMs)

/-- A closed connection leaves `wss.clients`. -/
def removeClient (clients : List Client) (cid : Nat) : List Client :=
  clients.filter (fun c => c.id ≠ cid)

/-! ### Log Viewer client (`LogViewer`, src/unnamed/part_005) -/

/-- The raw-text branch of `LogViewer.getLogLevel` (part_005 lines 25-30):
the level derived from `log.raw` when the record has no truthy `level`. -/
def getLogLevelFromRaw (raw : Str) : Str :=
  let lowerRaw := lowerStr raw
  if containsSub lowerRaw kwError || containsSub lowerRaw kwFail then lvlError
  else if containsSub lowerRaw kwWarn then lvlWarning
  else if containsSub lowerRaw kwDebug then lvlDebug
  else lvlInfo

/-- `LogViewer.getLogLevel` (part_005 lines 23-32).  A truthy non-string
`raw` would make `log.raw.toLowerCase()` throw in the source; that error
path is outside the model and mapped to the final default. -/
def getLogLevel (log : Json) : Json :=
  let lv := (getField log fldLevel).getD .null
  if jsTruthy lv then lv
  else
    match (getField log fldRaw).getD .null with
    | .str s => if s.isEmpty then .str lvlInfo else .str (getLogLevelFromRaw s)
    | _ => .str lvlInfo

/-- `useWebSocket`'s `handleLog` (second listing in ConfigList.jsx, lines
71-76): prepend the new record and keep the first 1000. -/
def handleLog (prevLogs : List Json) (rec : Json) : List Json :=
  (rec :: prevLogs).take 1000

/-- The client buffer after a sequence of pushed records, `arrivals`
listed oldest first. -/
def bufferAfter (arrivals : List Json) : List Json :=
  arrivals.foldl handleLog []

/-! ### Query Service (`DASHBOARD.md` server listing) -/

/-- A directory entry: name and file content.  A directory is `none` when
missing (`fs.existsSync` false). -/
structure DirFile where
  name : Str
  content : Str

/-- An entry of the `logs/` directory with its modification time. -/
structure LogFile where
  name : Str
  mtime : Nat
  content : Str

/-- `readJSONFile` (DASHBOARD.md lines 313-323): parse, `none` (null) on
failure; file-read errors are outside the model. -/
def readJSONFile (content : Str) : Option Json := jsonParse content

/-- `file.startsWith('.')`. -/
def startsWithDot : Str → Bool
  | '.' :: _ => true
  | _ => false

/-- The object literal `{ filename, path, ...content }`: spreading a
parsed object merges its fields, a duplicate key keeping its original
position with the later value; spreading a non-object adds nothing (the
index keys a spread string would add are not modelled — no claim reads
them). -/
def spreadInto (base : List (Str × Json)) (c : Json) : Json :=
  match c with
  | .obj fs =>
    .obj (base.map (fun kv => (kv.1, (lookupField fs kv.1).getD kv.2)) ++
          fs.filter (fun kv => (lookupField base kv.1).isNone))
  | _ => .obj base

/-- One iteration of `readConfigDirectory`'s forEach (DASHBOARD.md lines
346-367): the descriptor pushed for this entry, if any.  `parseYaml`
stands for the external `js-yaml` loader. -/
def configEntry (parseYaml : Str → Option Json) (dirPath : Str)
    (f : DirFile) : Option Json :=
  if startsWithDot f.name || strEndsWith f.name schemaSuffix then none
  else
    let content : Option Json :=
      if strEndsWith f.name extJson then readJSONFile f.content
      else if strEndsWith f.name extYaml || strEndsWith f.name extYml then
        parseYaml f.content
      else none
    match content with
    | some c =>
      if jsTruthy c then
        some (spreadInto
          [(fldFilename, .str f.name), (fldPath, .str (joinPath dirPath f.name))]
          c)
      else none
    | none => none

/-- The forEach loop of `readConfigDirectory`, pushing descriptors in
directory order. -/
def configLoop (parseYaml : Str → Option Json) (dirPath : Str) :
    List DirFile → List Json
  | [] => []
  | f :: rest =>
    match configEntry parseYaml dirPath f with
    | some d => d :: configLoop parseYaml dirPath rest
    | none => configLoop parseYaml dirPath rest

/-- `readConfigDirectory` (DASHBOARD.md lines 335-373): a missing
directory yields the empty item list. -/
def readConfigDirectory (parseYaml : Str → Option Json) (dirPath : Str)
    (dir : Option (List DirFile)) : List Json :=
  match dir with
  | none => []
  | some files => configLoop parseYaml dirPath files

/-- Whether `readRecentLogs` keeps a file of the `logs/` directory. -/
def isRecentLogExt (f : LogFile) : Bool :=
  strEndsWith f.name extJson || strEndsWith f.name extLog

/-- Insertion step of the stable mtime sort. -/
def insertByMtime (f : LogFile) : List LogFile → List LogFile
  | [] => [f]
  | g :: gs =>
    if g.mtime ≤ f.mtime then f :: g :: gs else g :: insertByMtime f gs

/-- `files.sort((a, b) => statB.mtime - statA.mtime)`: stable sort, most
recently modified first. -/
def sortByMtimeDesc : List LogFile → List LogFile
  | [] => []
  | f :: fs => insertByMtime f (sortByMtimeDesc fs)

/-- The records pushed for one log file's lines (DASHBOARD.md lines
394-408); `now` stands for `new Date().toISOString()`. -/
def fileRecords (f : LogFile) (now : Str) : List Json :=
  ((splitOnChar '\n' f.content).filter nonWS).map (fun line =>
    if strEndsWith f.name extJson then
      match jsonParse line with
      | some j => j
      | none => .obj [(fldRaw, .str line), (fldError, .str msgFailedParse)]
    else .obj [(fldRaw, .str line), (fldTimestamp, .str now)])

/-- The for-loop of `readRecentLogs` over the first five files, breaking
once `logs.length >= limit` (DASHBOARD.md lines 392-413). -/
def collectLogs (limit : Int) (now : Str) :
    List LogFile → List Json → List Json
  | [], logs => logs
  | f :: rest, logs =>
    let logs' := logs ++ fileRecords f now
    if limit ≤ (logs'.length : Int) then logs'
    else collectLogs limit now rest logs'

/-- `Array.prototype.slice(0, n)` with JavaScript negative-end semantics. -/
def jsSlice0 (l : List α) (n : Int) : List α :=
  if 0 ≤ n then l.take n.toNat else l.take (l.length - (-n).toNat)

/-- `readRecentLogs` (DASHBOARD.md lines 375-419). -/
def readRecentLogs (limit : Int) (dir : Option (List LogFile))
    (now : Str) : List Json :=
  match dir with
  | none => []
  | some files =>
    let sorted := sortByMtimeDesc (files.filter isRecentLogExt)
    jsSlice0 (collectLogs limit now (sorted.take 5) []) limit

/-- `parseInt(s)` with no radix argument: leading whitespace and sign,
automatic hexadecimal on a `0x` prefix, otherwise leading decimal digits;
`none` models NaN. -/
def jsParseInt (s : Str) : Option Int :=
  let s1 := s.dropWhile Char.isWhitespace
  let (neg, s2) :=
    match s1 with
    | '-' :: r => (true, r)
    | '+' :: r => (false, r)
    | _ => (false, s1)
  let fromDigits : List Nat → Int := fun ds =>
    let n : Nat := ds.foldl (fun a d => a * 16 + d) 0
    if neg then -(n : Int) else (n : Int)
  let decimal : Str → Option Int := fun t =>
    let ds := t.takeWhile Char.isDigit
    if ds.isEmpty then none
    else
      let n : Nat := ds.foldl (fun a c => a * 10 + (c.toNat - '0'.toNat)) 0
      some (if neg then -(n : Int) else (n : Int))
  match s2 with
  | '0' :: x :: r =>
    if x = 'x' || x = 'X' then
      let hs := r.takeWhile (fun c => (hexVal c).isSome)
      if hs.isEmpty then none
      else some (fromDigits (hs.map (fun c => (hexVal c).getD 0)))
    else decimal s2
  | _ => decimal s2

/-- The limit computation of the `/api/logs` route (DASHBOARD.md line
457): `parseInt(req.query.limit) || 100`. -/
def apiLogsLimit (q : Option Str) : Int :=
  match q with
  | none => 100
  | some s =>
    match jsParseInt s with
    | none => 100
    | some v => if v = 0 then 100 else v

/-- `GET /api/logs` (DASHBOARD.md lines 456-460). -/
def apiLogs (q : Option Str) (dir : Option (List LogFile)) (now : Str) :
    List Json :=
  readRecentLogs (apiLogsLimit q) dir now

/-! ### Shared concrete inputs -/

/-- A line containing both the keyword "debug" and the keyword "info". -/
def dbgInfoLine : Str := "debug info".toList

/-- A line containing none of the level keywords. -/
def helloStr : Str := "hello".toList

/-! ### C2 — level inference priority -/

/-- The level-inference order stated by claim C2 ("debug" checked before
"info"); a spec-side definition, to be compared with the source's
`inferLogLevel`. -/
def levelByClaimOrder (line : Str) : Str :=
  let low := lowerStr line
  if containsSub low kwError || containsSub low kwFail then lvlError
  else if containsSub low kwWarn then lvlWarning
  else if containsSub low kwDebug then lvlDebug
  else if containsSub low kwInfo then lvlInfo
  else lvlInfo

/-- Keyword groups in the priority order the source actually checks:
error/fail, then warn, then info, then debug. -/
def levelRules : List (List Str × Str) :=
  [([kwError, kwFail], lvlError), ([kwWarn], lvlWarning),
   ([kwInfo], lvlInfo), ([kwDebug], lvlDebug)]

/-- The level of the first keyword group that matches the lowercased
line, default "info". -/
def firstRuleLevel (low : Str) : List (List Str × Str) → Str
  | [] => lvlInfo
  | (kws, lvl) :: rest =>
    if kws.any (fun k => containsSub low k) then lvl
    else firstRuleLevel low rest

/-- The amended C2 level function: case-insensitive substring match with
fixed priority error/fail > warn > info > debug, default info. -/
def levelByRules (line : Str) : Str :=
  firstRuleLevel (lowerStr line) levelRules

/-- Claim C2 is false as stated: on the line "debug info" the claim's
order (debug before info) yields "debug", but the source's
`inferLogLevel` checks "info" before "debug" and yields "info". -/
theorem c2_counterexample :
    inferLogLevel dbgInfoLine = lvlInfo ∧
    levelByClaimOrder dbgInfoLine = lvlDebug ∧
    inferLogLevel dbgInfoLine ≠ levelByClaimOrder dbgInfoLine := by
  refine ⟨by decide, by decide, by decide⟩

/-- Claim C2 (amended): the Tailer infers the level by case-insensitive
substring match with priority error/fail > warn > **info** > **debug**
(info checked before debug), defaulting to info. -/
theorem c2_level_priority (line : Str) :
    inferLogLevel line = levelByRules line := by
  unfold inferLogLevel levelByRules firstRuleLevel levelRules
  cases hE : containsSub (lowerStr line) kwError <;>
  cases hF : containsSub (lowerStr line) kwFail <;>
  cases hW : containsSub (lowerStr line) kwWarn <;>
  cases hI : containsSub (lowerStr line) kwInfo <;>
  cases hD : containsSub (lowerStr line) kwDebug <;>
    simp [hE, hF, hW, hI, hD, firstRuleLevel]

/-! ### C9 — client versus server level derivation -/

/-- Claim C9 is false as stated: the two heuristics differ on the string
"debug info" — the client's `getLogLevel` raw branch never checks "info"
and returns "debug", the server's `inferLogLevel` checks "info" first and
returns "info". -/
theorem c9_counterexample :
    getLogLevelFromRaw dbgInfoLine = lvlDebug ∧
    inferLogLevel dbgInfoLine = lvlInfo ∧
    getLogLevelFromRaw dbgInfoLine ≠ inferLogLevel dbgInfoLine := by
  refine ⟨by decide, by decide, by decide⟩

set_option linter.unnecessarySeqFocus false in
/-- Claim C9 (amended): the client's display-level derivation from `raw`
agrees with the server's heuristic on every string that does not contain
both "info" and "debug" (case-insensitively); on a string containing both
(and no higher-priority keyword) the server yields "info" and the client
"debug". -/
theorem c9_raw_level_agreement (s : Str)
    (h : (containsSub (lowerStr s) kwInfo &&
          containsSub (lowerStr s) kwDebug) = false) :
    getLogLevelFromRaw s = inferLogLevel s := by
  unfold getLogLevelFromRaw inferLogLevel
  cases hE : containsSub (lowerStr s) kwError <;>
  cases hF : containsSub (lowerStr s) kwFail <;>
  cases hW : containsSub (lowerStr s) kwWarn <;>
  cases hI : containsSub (lowerStr s) kwInfo <;>
  cases hD : containsSub (lowerStr s) kwDebug <;>
    (try simp [hE, hF, hW, hI, hD]) <;>
    simp [hI, hD] at h

/-- Witness for C9's amended theorem at the concrete line "hello". -/
theorem c9_witness : getLogLevelFromRaw helloStr = inferLogLevel helloStr :=
  c9_raw_level_agreement helloStr (by decide)

/-! ### Lemmas about `splitOnChar` -/

/-- Splitting text free of the separator yields the single segment. -/
theorem splitOnChar_of_not_mem (c : Char) (l : Str) (h : c ∉ l) :
    splitOnChar c l = [l] := by
  induction l with
  | nil => rfl
  | cons x xs ih =>
    have hx : ¬ x = c := fun e => h (by simp [e])
    have hxs : c ∉ xs := fun m => h (List.mem_cons_of_mem _ m)
    simp [splitOnChar, hx, ih hxs]

/-- A separator-free chunk before a separator becomes the first segment. -/
theorem splitOnChar_append_cons (c : Char) (s r : Str) (h : c ∉ s) :
    splitOnChar c (s ++ c :: r) = s :: splitOnChar c r := by
  induction s with
  | nil => simp [splitOnChar]
  | cons x xs ih =>
    have hx : ¬ x = c := fun e => h (by simp [e])
    have hxs : c ∉ xs := fun m => h (List.mem_cons_of_mem _ m)
    simp [splitOnChar, hx, ih hxs]

/-! ### C1 — lines written in two chunks -/

def worldStr : Str := " world".toList
def helloWorldNl : Str := "hello world\n".toList
def helloWorldStr : Str := "hello world".toList
def aLogPath : Str := "a.log".toList

/-- Claim C1 is false as stated: writing "hello" (change event), then
" world\n" (second change event), makes the watcher emit two records —
"hello" at the first read's stream end (there is no `pendingPartialLine`;
`readNewLines` processes the leftover buffer immediately) and " world" on
the second read — never one record "hello world". -/
theorem c1_counterexample :
    (handleFileChange aLogPath 0 helloStr).2 ++
      (handleFileChange aLogPath helloStr.length helloWorldNl).2 =
        [helloStr, worldStr] ∧
    [helloStr, worldStr] ≠ [helloWorldStr] ∧
    helloStr ++ worldStr = helloWorldStr := by
  refine ⟨by decide, by decide, by decide⟩

/-- Claim C1 (amended): the trailing partial text of a read is not
buffered but emitted immediately as its own record when the stream ends;
a line written in two chunks with an intervening change event yields two
records — the first chunk and the remainder — whose concatenation is the
full line, so the text is split but none of it is lost. -/
theorem c1_two_chunk_records (path pre c1 s : Str)
    (hw : watchedExt path = true)
    (h1 : '\n' ∉ c1) (h2 : nonWS c1 = true)
    (h3 : '\n' ∉ s) (h4 : nonWS s = true) :
    (handleFileChange path pre.length (pre ++ c1)).2 = [c1] ∧
    (handleFileChange path (pre ++ c1).length
        (pre ++ c1 ++ (s ++ ['\n']))).2 = [s] := by
  have hc1ne : c1 ≠ [] := by
    intro e; subst e; simp [nonWS] at h2
  have hpos : 0 < c1.length := List.length_pos.mpr hc1ne
  constructor
  · have hlen : ¬ ((pre ++ c1).length ≤ pre.length) := by
      simp only [List.length_append]; omega
    simp only [handleFileChange, hw, if_true, readNewLines, hlen, if_false,
      List.drop_left, emittedLines, splitOnChar_of_not_mem _ _ h1]
    simp [List.filter, h2]
  · have hlen : ¬ ((pre ++ c1 ++ (s ++ ['\n'])).length ≤ (pre ++ c1).length) := by
      simp only [List.length_append, List.length_cons, List.length_nil]
      omega
    have hdrop : (pre ++ c1 ++ (s ++ ['\n'])).drop (pre ++ c1).length
        = s ++ ['\n'] := List.drop_left _ _
    have hsplit : splitOnChar '\n' (s ++ ['\n']) = [s, []] := by
      have := splitOnChar_append_cons '\n' s [] h3
      simpa [splitOnChar] using this
    simp only [handleFileChange, hw, if_true, readNewLines, hlen, if_false,
      hdrop, emittedLines, hsplit]
    simp only [List.filter]
    rw [h4]
    rfl

/-- Witness for C1's amended theorem on the concrete two-chunk write of
"hello world". -/
theorem c1_witness :
    (handleFileChange aLogPath (List.length ([] : Str)) ([] ++ helloStr)).2 =
      [helloStr] ∧
    (handleFileChange aLogPath (([] : Str) ++ helloStr).length
        ([] ++ helloStr ++ (worldStr ++ ['\n']))).2 = [worldStr] :=
  c1_two_chunk_records aLogPath [] helloStr worldStr (by decide) (by decide)
    (by decide) (by decide) (by decide)

/-! ### C6 — byte-offset bounds -/

def byeStr : Str := "bye".toList

/-- Claim C6 is false as stated: a change event that shrinks the file
(truncation) moves the recorded offset backwards — after add("hello") and
change("bye") the offsets are 5 then 3. -/
theorem c6_counterexample :
    offsetsAfter aLogPath 0 [FsEvent.add helloStr, FsEvent.change byeStr] =
      [5, 3] ∧ 3 < 5 := by
  refine ⟨by decide, by decide⟩

/-- Claim C6 (amended): after handling any event on a watched path the
recorded offset never exceeds the file's size at read time, and it is
monotonically non-decreasing provided the event does not shrink the file
below the current offset (appends in particular). -/
theorem c6_offset_bounds (path : Str) (offset : Nat) (ev : FsEvent)
    (hw : watchedExt path = true) :
    (offset ≤ ev.content.length →
      offset ≤ (stepWatcher path offset ev).1) ∧
    (stepWatcher path offset ev).1 ≤ ev.content.length := by
  cases ev <;>
    simp [stepWatcher, handleFileAdd, handleFileChange, FsEvent.content, hw]

/-- Witness for C6's amended theorem: an add event with content "hello"
at offset 0. -/
theorem c6_witness :
    0 ≤ (stepWatcher aLogPath 0 (FsEvent.add helloStr)).1 ∧
    (stepWatcher aLogPath 0 (FsEvent.add helloStr)).1 ≤
      (FsEvent.add helloStr).content.length :=
  ⟨(c6_offset_bounds aLogPath 0 (FsEvent.add helloStr) (by decide)).1
      (by decide),
   (c6_offset_bounds aLogPath 0 (FsEvent.add helloStr) (by decide)).2⟩

/-! ### C3 — message-or-raw invariant -/

def emptyObjLine : Str := ['{', '}']
def xJsonPath : Str := "x.json".toList

/-- Claim C3 is false as stated: the `.json` line "{}" parses
successfully, and the resulting record — the parsed object with only
`source` injected — has neither a `message` nor a `raw` field. -/
theorem c3_counterexample :
    jsonParse emptyObjLine = some (Json.obj []) ∧
    getField (processLogLine emptyObjLine xJsonPath []) fldMessage = none ∧
    getField (processLogLine emptyObjLine xJsonPath []) fldRaw = none := by
  refine ⟨rfl, rfl, rfl⟩

/-- Claim C3 (amended): every record produced for a `.log` line or for an
unparseable `.json` line carries `raw` equal to the line, which is
non-empty for every line the pipeline forwards (the stream handlers only
pass lines with a non-whitespace character); a record from a successfully
parsed `.json` line consists of the parsed value's own fields plus
`source` and may lack both `message` and `raw`. -/
theorem c3_raw_present (line filePath now : Str)
    (hline : nonWS line = true)
    (h : strEndsWith filePath extJson = false ∨ jsonParse line = none) :
    getField (processLogLine line filePath now) fldRaw = some (.str line) ∧
    line ≠ [] := by
  have hne : line ≠ [] := by
    intro e; subst e; simp [nonWS] at hline
  refine ⟨?_, hne⟩
  rcases h with h | h
  · simp [processLogLine, h, getField, lookupField]
  · cases hjs : strEndsWith filePath extJson
    · simp [processLogLine, hjs, getField, lookupField]
    · simp [processLogLine, hjs, h, getField, lookupField]

/-- Witness for C3's amended theorem: the line "hello" in "a.log". -/
theorem c3_witness :
    getField (processLogLine helloStr aLogPath []) fldRaw =
      some (.str helloStr) ∧ helloStr ≠ [] :=
  c3_raw_present helloStr aLogPath [] (by decide) (Or.inl (by decide))

/-! ### C7 — broadcast fan-out -/

/-- Deliveries of `sendLoop`: exactly one copy of the message to each
open client. -/
theorem sendLoop_mem (clients : List Client) (data : Json) (i : Nat)
    (m : Json) :
    (i, m) ∈ sendLoop clients data ↔
      m = data ∧ ∃ c ∈ clients, c.id = i ∧ c.readyState = wsOPEN := by
  induction clients with
  | nil => simp [sendLoop]
  | cons c cs ih =>
    by_cases hc : c.readyState = wsOPEN
    · simp only [sendLoop, hc, if_true, List.mem_cons, ih, Prod.mk.injEq]
      aesop
    · simp only [sendLoop, hc, if_false, ih, List.mem_cons]
      aesop

/-- Claim C7: publishing a record sends the `{type: "log", data, timestamp}`
envelope to exactly the open subscribers — every open client receives it,
every delivery is the identical envelope to an open client — and in the
two-subscriber scenario both receive it, and after one disconnects only
the remaining one does. -/
theorem c7_broadcast (clients : List Client) (rec : Json) (ts : Nat) :
    (∀ c, c ∈ clients → c.readyState = wsOPEN →
        (c.id, logEnvelope rec ts) ∈ publishRecord (some clients) rec ts) ∧
    (∀ i m, (i, m) ∈ publishRecord (some clients) rec ts →
        m = logEnvelope rec ts ∧
        ∃ c ∈ clients, c.id = i ∧ c.readyState = wsOPEN) ∧
    publishRecord (some [⟨1, wsOPEN⟩, ⟨2, wsOPEN⟩]) rec ts =
      [(1, logEnvelope rec ts), (2, logEnvelope rec ts)] ∧
    publishRecord (some (removeClient [⟨1, wsOPEN⟩, ⟨2, wsOPEN⟩] 2)) rec ts =
      [(1, logEnvelope rec ts)] := by
  refine ⟨?_, ?_, rfl, rfl⟩
  · intro c hc hopen
    exact (sendLoop_mem clients (logEnvelope rec ts) c.id
      (logEnvelope rec ts)).mpr ⟨rfl, c, hc, rfl, hopen⟩
  · intro i m hm
    exact (sendLoop_mem clients (logEnvelope rec ts) i m).mp hm

/-- Witness for C7 at one concrete open subscriber. -/
theorem c7_witness :
    ((1 : Nat), logEnvelope Json.null 0) ∈
      publishRecord (some [⟨1, wsOPEN⟩]) Json.null 0 :=
  (c7_broadcast [⟨1, wsOPEN⟩] Json.null 0).1 ⟨1, wsOPEN⟩
    (List.mem_cons_self _ _) rfl

/-! ### C8 — bounded client buffer -/

/-- Truncating the second summand below the cut has no effect on the
truncated concatenation. -/
theorem take_append_take {α : Type} (u v : List α) (k : Nat) :
    (u ++ v.take k).take k = (u ++ v).take k := by
  rw [List.take_append_eq_append_take, List.take_append_eq_append_take,
    List.take_take, Nat.min_eq_left (Nat.sub_le _ _)]

/-- The client buffer after any arrival sequence: the most recent 1000
records, newest first. -/
theorem bufferAfter_eq (l : List Json) :
    bufferAfter l = l.reverse.take 1000 := by
  have gen : ∀ (l acc : List Json), acc.length ≤ 1000 →
      l.foldl handleLog acc = (l.reverse ++ acc).take 1000 := by
    intro l
    induction l with
    | nil =>
      intro acc h
      simp [List.take_of_length_le h]
    | cons x xs ih =>
      intro acc h
      have hstep : handleLog acc x = (x :: acc).take 1000 := rfl
      simp only [List.foldl_cons, List.reverse_cons, hstep]
      rw [ih _ (List.length_take_le _ _), take_append_take,
        List.append_assoc]
      rfl
  simpa using gen l [] (by simp)

def recA : Json := .str ['a']
def recB : Json := .str ['b']
def recC : Json := .str ['c']

/-- 1001 arrivals: one `a`, one `b`, then 999 `c`s. -/
def arr1001 : List Json := recA :: recB :: List.replicate 999 recC

/-- Claim C8 is false as stated: after the 1001 arrivals of `arr1001` the
buffer holds the most recent 1000 records but in reverse arrival order
(newest first) — it is `replicate 999 c ++ [b]`, not the arrival-order
suffix `b :: replicate 999 c`. -/
theorem c8_counterexample :
    arr1001.length = 1001 ∧
    bufferAfter arr1001 = List.replicate 999 recC ++ [recB] ∧
    arr1001.drop (arr1001.length - 1000) = recB :: List.replicate 999 recC ∧
    bufferAfter arr1001 ≠ arr1001.drop (arr1001.length - 1000) := by
  have hlen : arr1001.length = 1001 := by
    simp only [arr1001, List.length_cons, List.length_replicate]
  have hbuf : bufferAfter arr1001 = List.replicate 999 recC ++ [recB] := by
    rw [bufferAfter_eq]
    simp only [arr1001, List.reverse_cons, List.reverse_replicate,
      List.append_assoc, List.nil_append]
    rw [List.take_append_eq_append_take, List.take_replicate,
      List.length_replicate]
    norm_num
  have hdrop : arr1001.drop (arr1001.length - 1000) =
      recB :: List.replicate 999 recC := by
    rw [hlen]
    norm_num
    rfl
  refine ⟨hlen, hbuf, hdrop, ?_⟩
  rw [hbuf, hdrop]
  intro h
  have hh := congrArg List.head? h
  have h1 : (List.replicate 999 recC ++ [recB]).head? = some recC := rfl
  have h2 : (recB :: List.replicate 999 recC).head? = some recB := rfl
  rw [h1, h2] at hh
  have : recC = recB := Option.some.inj hh
  simp [recB, recC] at this

/-- Claim C8 (amended): the Log Viewer's buffer never holds more than
1000 records, and it always consists of the most recent records newest
first — after any arrival sequence it equals the reversal of the last
(up to) 1000 arrivals, the oldest evicted first. -/
theorem c8_bounded_buffer (arrivals : List Json) :
    (bufferAfter arrivals).length ≤ 1000 ∧
    bufferAfter arrivals = arrivals.reverse.take 1000 := by
  have h := bufferAfter_eq arrivals
  exact ⟨by rw [h]; exact List.length_take_le _ _, h⟩

/-! ### C10 — default limit of /api/logs -/

def zeroStr : Str := "0".toList
def abcStr : Str := "abc".toList
def helloNl : Str := "hello\n".toList
def aLogName : Str := "a.log".toList

/-- Claim C10: an absent, non-numeric (NaN-parsing), or zero `limit`
query parameter falls back to the default 100, and `limit=0` returns the
available records (up to 100) rather than an empty list. -/
theorem c10_default_limit :
    apiLogsLimit none = 100 ∧
    apiLogsLimit (some zeroStr) = 100 ∧
    (∀ s, jsParseInt s = none → apiLogsLimit (some s) = 100) ∧
    apiLogs (some zeroStr) (some [⟨aLogName, 0, helloNl⟩]) [] =
      [Json.obj [(fldRaw, .str helloStr), (fldTimestamp, .str [])]] := by
  refine ⟨rfl, rfl, ?_, rfl⟩
  intro s h
  simp [apiLogsLimit, h]

/-- Witness for C10 at the concrete non-numeric query string "abc". -/
theorem c10_witness : apiLogsLimit (some abcStr) = 100 :=
  c10_default_limit.2.2.1 abcStr rfl

/-! ### C5 — config directory reader -/

/-- Skip rule of the amended C5: dotfiles and `.schema.json` files. -/
def specSkip (name : Str) : Bool :=
  startsWithDot name || strEndsWith name schemaSuffix

/-- Parser dispatch of the amended C5: JSON for `.json`, the YAML loader
for `.yaml`/`.yml`, nothing for other extensions. -/
def specParse (parseYaml : Str → Option Json) (f : DirFile) : Option Json :=
  if strEndsWith f.name extJson then jsonParse f.content
  else if strEndsWith f.name extYaml || strEndsWith f.name extYml then
    parseYaml f.content
  else none

/-- Descriptor of the amended C5: the parsed content annotated with
`filename` and `path`. -/
def specDescriptor (dirPath : Str) (f : DirFile) (c : Json) : Json :=
  spreadInto
    [(fldFilename, .str f.name), (fldPath, .str (joinPath dirPath f.name))] c

/-- The scan described by the amended C5: one descriptor per file that is
not skipped, parses, and whose parsed value is truthy; order preserved. -/
def specConfigScan (parseYaml : Str → Option Json) (dirPath : Str)
    (files : List DirFile) : List Json :=
  files.filterMap (fun f =>
    if specSkip f.name then none
    else
      (specParse parseYaml f).bind (fun c =>
        if jsTruthy c then some (specDescriptor dirPath f c) else none))

/-- The loop body agrees with the amended C5's per-file description. -/
theorem configEntry_eq_spec (parseYaml : Str → Option Json) (dirPath : Str)
    (f : DirFile) :
    configEntry parseYaml dirPath f =
      (if specSkip f.name then none
       else
         (specParse parseYaml f).bind (fun c =>
           if jsTruthy c then some (specDescriptor dirPath f c) else none)) := by
  unfold configEntry specSkip specParse specDescriptor readJSONFile
  cases hskip : (startsWithDot f.name || strEndsWith f.name schemaSuffix)
  · simp only [Bool.false_eq_true, if_false]
    cases hc : (if strEndsWith f.name extJson then jsonParse f.content
        else if strEndsWith f.name extYaml || strEndsWith f.name extYml then
          parseYaml f.content
        else none) <;>
      simp [hc]
  · simp

def zJsonFile : DirFile := ⟨"z.json".toList, "null".toList⟩
def agentsPath : Str := "agents".toList

/-- Claim C5 is false as stated: the file `z.json` containing `null`
parses successfully, yet the reader returns no descriptor for it — the
truthiness check `if (content)` conflates a falsy parsed value (null,
false, 0, "") with a parse failure. -/
theorem c5_counterexample :
    jsonParse zJsonFile.content = some Json.null ∧
    readConfigDirectory (fun _ => none) agentsPath (some [zJsonFile]) = [] :=
  ⟨rfl, rfl⟩

def xJsonName : Str := "x.json".toList
def xJsonContent : Str :=
  ['{', '"', 'n', 'a', 'm', 'e', '"', ':', '"', 'x', '"', '}']
def xSchemaName : Str := "x.schema.json".toList
def hiddenName : Str := ".hidden.json".toList
def junkStr : Str := "junk".toList
def agentsFiles : List DirFile :=
  [⟨xJsonName, xJsonContent⟩, ⟨xSchemaName, junkStr⟩, ⟨hiddenName, junkStr⟩]
def agentsXPath : Str := "agents/x.json".toList
def fldName : Str := "name".toList

/-- Claim C5 (amended): a missing directory yields an empty list (not an
error); otherwise the reader returns, in directory order, one descriptor
(annotated with `filename` and `path`) for each file that is not a
dotfile or `.schema.json`, has a recognized extension, parses, and whose
parsed value is truthy — a malformed file is skipped without aborting the
scan, and so is a file parsing to a falsy value (null, false, 0, "").
The spec's `agents/` scenario returns exactly the `x.json` descriptor. -/
theorem c5_config_reader (parseYaml : Str → Option Json) (dirPath : Str) :
    readConfigDirectory parseYaml dirPath none = [] ∧
    (∀ files, readConfigDirectory parseYaml dirPath (some files) =
        specConfigScan parseYaml dirPath files) ∧
    readConfigDirectory (fun _ => none) agentsPath (some agentsFiles) =
      [Json.obj [(fldFilename, .str xJsonName), (fldPath, .str agentsXPath),
        (fldName, .str ['x'])]] := by
  refine ⟨rfl, ?_, rfl⟩
  intro files
  induction files with
  | nil => rfl
  | cons f rest ih =>
    simp only [readConfigDirectory, specConfigScan] at ih ⊢
    simp only [configLoop, List.filterMap_cons]
    rw [configEntry_eq_spec]
    cases h : (if specSkip f.name then none
        else
          (specParse parseYaml f).bind (fun c =>
            if jsTruthy c then some (specDescriptor dirPath f c) else none)) <;>
      simp [h, ih]

/-! ### C4 — GET /api/logs parsing and truncation -/

/-- Concatenation of the per-file record lists, in file order. -/
def flatRecords (now : Str) : List LogFile → List Json
  | [] => []
  | f :: rest => fileRecords f now ++ flatRecords now rest

/-- The break in `readRecentLogs`' loop is invisible after the final
truncation: slicing the collected records to `limit` equals truncating
the full concatenation. -/
theorem collectLogs_slice (limit : Int) (now : Str) (h : 0 ≤ limit) :
    ∀ (fs : List LogFile) (logs : List Json),
      jsSlice0 (collectLogs limit now fs logs) limit =
        (logs ++ flatRecords now fs).take limit.toNat := by
  intro fs
  induction fs with
  | nil =>
    intro logs
    simp [collectLogs, flatRecords, jsSlice0, h]
  | cons f rest ih =>
    intro logs
    simp only [collectLogs, flatRecords]
    by_cases hb : limit ≤ ((logs ++ fileRecords f now).length : Int)
    · rw [if_pos hb]
      have hn : limit.toNat ≤ (logs ++ fileRecords f now).length := by
        omega
      rw [← List.append_assoc,
        List.take_append_of_le_length hn]
      simp [jsSlice0, h]
    · rw [if_neg hb, ih (logs ++ fileRecords f now), List.append_assoc]

def errLine : Str := "ERROR: disk full".toList
def errLineNl : Str := "ERROR: disk full\n".toList

/-- Claim C4 is false as stated: `readRecentLogs` does not parse lines
the way §4.2 does.  For the `.log` line "ERROR: disk full" it returns a
record with only `raw` and `timestamp` and no `level`, while the Tailer's
`processLogLine` attaches `level: "error"` (it also tags bad `.json`
lines with `error: "Failed to parse JSON"` instead of `parseError` and a
timestamp). -/
theorem c4_counterexample :
    readRecentLogs 100 (some [⟨aLogName, 0, errLineNl⟩]) [] =
      [Json.obj [(fldRaw, .str errLine), (fldTimestamp, .str [])]] ∧
    getField (Json.obj [(fldRaw, .str errLine), (fldTimestamp, .str [])])
      fldLevel = none ∧
    getField (processLogLine errLine aLogPath []) fldLevel =
      some (.str lvlError) ∧
    getField (processLogLine errLine aLogPath []) fldLevel ≠
      getField (Json.obj [(fldRaw, .str errLine), (fldTimestamp, .str [])])
        fldLevel := by
  have h2 : getField
      (Json.obj [(fldRaw, .str errLine), (fldTimestamp, .str [])])
      fldLevel = none := rfl
  have h3 : getField (processLogLine errLine aLogPath []) fldLevel =
      some (.str lvlError) := rfl
  refine ⟨rfl, h2, h3, ?_⟩
  rw [h2, h3]
  exact Option.some_ne_none _

/-- Claim C4 (amended): with the nonnegative limit the route computes,
`/api/logs` returns the records of at most the 5 most recently modified
`.json`/`.log` files, most-recent-first, truncated to `limit`; a missing
logs directory yields the empty list.  Lines are parsed by
`readRecentLogs`' own rule, not §4.2's: a `.log` line becomes a record
with `raw` and a generated `timestamp` but no inferred `level` (and no
`parseError` field); `.json` lines are parsed as JSON with fallback
`{raw, error}`. -/
theorem c4_recent_logs (limit : Int) (files : List LogFile) (now : Str)
    (h : 0 ≤ limit) :
    readRecentLogs limit none now = [] ∧
    readRecentLogs limit (some files) now =
      (flatRecords now
        ((sortByMtimeDesc (files.filter isRecentLogExt)).take 5)).take
          limit.toNat ∧
    (∀ f, strEndsWith f.name extJson = false →
      ∀ r, r ∈ fileRecords f now →
        getField r fldLevel = none ∧ getField r fldParseError = none ∧
        ∃ line, getField r fldRaw = some (.str line) ∧
          getField r fldTimestamp = some (.str now)) := by
  refine ⟨rfl, ?_, ?_⟩
  · show jsSlice0 _ _ = _
    rw [collectLogs_slice limit now h]
    rfl
  · intro f hjson r hr
    simp only [fileRecords, hjson, Bool.false_eq_true, if_false,
      List.mem_map] at hr
    obtain ⟨line, _, rfl⟩ := hr
    refine ⟨?_, ?_, line, ?_, ?_⟩
    · simp only [getField, lookupField]
      rw [if_neg (by decide), if_neg (by decide)]
    · simp only [getField, lookupField]
      rw [if_neg (by decide), if_neg (by decide)]
    · simp only [getField, lookupField]
      rw [if_pos (by decide)]
    · simp only [getField, lookupField]
      rw [if_neg (by decide), if_pos (by decide)]

/-- Witness for C4's amended theorem on a one-file logs directory with
limit 100. -/
theorem c4_witness :
    readRecentLogs 100 (some [⟨aLogName, 0, errLineNl⟩]) [] =
      (flatRecords []
        ((sortByMtimeDesc
          ([⟨aLogName, 0, errLineNl⟩].filter isRecentLogExt)).take 5)).take
            (100 : Int).toNat :=
  (c4_recent_logs 100 [⟨aLogName, 0, errLineNl⟩] [] (by decide)).2.1
